import Mathlib

/-!
A shallow embedding of `src/memory/limited_postgres_memory.py`
(`LimitedPostgresChatMessageHistory`), the context-shaping memory layer:
timestamp-annotating reads, the confusion heuristic, window composition and
retention enforcement, followed by theorems settling the specification
claims about it.

The durable store is modelled as a list of rows; store connectivity or
query failures inside a try block are modelled by a `connFails` flag; the
result of the external `json.loads` call on a string payload is carried
inside the payload value (`none` when parsing would raise).
-/

namespace LimitedMemory

/-- Python `str.lower` on one code point, restricted to the Basic Latin and
Latin-1 uppercase ranges (enough for the Portuguese confusion vocabulary);
all other code points are left unchanged. -/
def pyLowerChar (c : Char) : Char :=
  if 65 ≤ c.toNat ∧ c.toNat ≤ 90 then Char.ofNat (c.toNat + 32)
  else if 192 ≤ c.toNat ∧ c.toNat ≤ 222 ∧ c.toNat ≠ 215 then Char.ofNat (c.toNat + 32)
  else c

/-- Python `s.lower()` under the restriction of `pyLowerChar`, applied to
every code point. -/
def pyLower (s : String) : String := ⟨s.data.map pyLowerChar⟩

/-- Python `pat in text`: substring containment on code points. -/
def containsSub (text pat : String) : Bool := decide (pat.data <:+: text.data)

/-- Python list slicing `lst[i:]` for an arbitrary integer index `i`. -/
def pySliceFrom (l : List α) (i : Int) : List α :=
  if 0 ≤ i then l.drop i.toNat else l.drop (l.length - (-i).toNat)

/-- Zero-padded two-digit decimal rendering (strftime `%d`, `%m`, `%H`,
`%M`, `%S`). -/
def twoDigits (n : Nat) : String := (if n < 10 then "0" else "") ++ toString n

/-- Zero-padded four-digit decimal rendering of the year (strftime `%Y`). -/
def fourDigits (n : Nat) : String :=
  (if n < 10 then "000" else if n < 100 then "00" else if n < 1000 then "0" else "")
    ++ toString n

/-- Year rendering, allowing the (unreachable in practice) negative case. -/
def yearStr (y : Int) : String :=
  if y < 0 then "-" ++ fourDigits (-y).toNat else fourDigits y.toNat

/-- Proleptic Gregorian civil date from a count of days since 1970-01-01
(the algorithm underlying CPython date handling): year, month, day. -/
def civilFromDays (z : Int) : Int × Nat × Nat :=
  let zs := z + 719468
  let era : Int := zs.ediv 146097
  let doe : Nat := (zs - era * 146097).toNat
  let yoe : Nat := (doe - doe / 1460 + doe / 36524 - doe / 146096) / 365
  let y : Int := (yoe : Int) + era * 400
  let doy : Nat := doe - (365 * yoe + yoe / 4 - yoe / 100)
  let mp : Nat := (5 * doy + 2) / 153
  let d : Nat := doy - (153 * mp + 2) / 5 + 1
  let m : Nat := if mp < 10 then mp + 3 else mp - 9
  (if m ≤ 2 then y + 1 else y, m, d)

/-- Offset of the fixed reference timezone `America/Sao_Paulo`: UTC-3 with
no daylight saving (abolished in 2019); `pytz` renders its name as `-03`. -/
def spOffsetSeconds : Int := -10800

/-- `created_at.astimezone(tz).strftime("%d/%m/%Y %H:%M:%S (%Z)")` for
`tz = pytz.timezone("America/Sao_Paulo")`; `created_at` is modelled as
seconds since the epoch, UTC. -/
def formatSaoPaulo (created_at : Int) : String :=
  let localSecs := created_at + spOffsetSeconds
  let days := localSecs.ediv 86400
  let secOfDay := (localSecs.emod 86400).toNat
  let c := civilFromDays days
  twoDigits c.2.2 ++ "/" ++ twoDigits c.2.1 ++ "/" ++ yearStr c.1 ++ " "
    ++ twoDigits (secOfDay / 3600) ++ ":" ++ twoDigits (secOfDay % 3600 / 60)
    ++ ":" ++ twoDigits (secOfDay % 60) ++ " (-03)"

/-- Metadata map (`additional_kwargs`), modelled as an association list. -/
abbrev Kwargs := List (String × String)

/-- Message role discriminant of the external message-object contract. -/
inductive Role where
  | human
  | ai
deriving DecidableEq, Repr

/-- A typed chat message: the fields the code reads and writes (role
discriminant, `content`, `additional_kwargs`). -/
structure BaseMessage where
  role : Role
  content : String
  additional_kwargs : Kwargs
deriving DecidableEq, Repr

/-- A parsed `message` JSON object: the three keys the code reads with
`.get`; `none` models an absent key. -/
structure MsgDict where
  type : Option String
  content : Option String
  additional_kwargs : Option Kwargs
deriving DecidableEq, Repr

/-- The `message` column value as delivered by the driver. A serialized
string carries the outcome of the external `json.loads` call (`none` when
parsing raises); `dict` is an already-parsed object; `other` is a value of
any other type. -/
inductive Payload where
  | str (parse : Option MsgDict)
  | dict (d : MsgDict)
  | other
deriving DecidableEq, Repr

/-- One stored row of the message table. -/
structure Row where
  id : Nat
  session_id : String
  payload : Payload
  created_at : Int
deriving DecidableEq, Repr

/-- The fixed confusion vocabulary of `should_clear_context`. -/
def confusion_patterns : List String :=
  ["não identifiquei", "não consegui identificar", "informar o nome principal",
   "desculpe, não", "pode informar"]

/-- `should_clear_context`: joins the lowercased contents of the last three
messages with a single space and counts how many confusion patterns occur
as substrings of the joined text. -/
def should_clear_context (recent_messages : List BaseMessage) : Bool :=
  if recent_messages.length < 3 then
    false
  else
    let recent_text :=
      String.intercalate " "
        ((pySliceFrom recent_messages (-3)).map (fun m => pyLower m.content))
    decide (2 ≤ confusion_patterns.countP (fun pat => containsSub recent_text pat))

/-- The loop body of `_fetch_messages_with_timestamp` up to the decoded
dictionary: `json.loads` on a string payload (an `error` models the raised
exception), an already-parsed dict used as is, any other type skipped
(`continue`). -/
def decodeRowDict : Payload → Except Unit (Option MsgDict)
  | .str none => .error ()
  | .str (some d) => .ok (some d)
  | .dict d => .ok (some d)
  | .other => .ok none

/-- The loop body after decoding: default the fields, format the localized
timestamp, inject it into the content, rebuild the typed message (type tag
`"ai"` gives an AI message, everything else a human message). -/
def annotateRow (d : MsgDict) (created_at : Int) : BaseMessage :=
  let message_type := d.type.getD "human"
  let content := d.content.getD ""
  let kwargs := d.additional_kwargs.getD []
  let formatted_time := formatSaoPaulo created_at
  let new_content := "[CONTEXTO_MEMORIA_ANTIGA: " ++ formatted_time ++ "] " ++ content
  if message_type = "ai" then
    { role := .ai, content := new_content, additional_kwargs := kwargs }
  else
    { role := .human, content := new_content, additional_kwargs := kwargs }

/-- The row loop of `_fetch_messages_with_timestamp`: an `error` is the
`json.loads` exception, which escapes the loop (it is caught only by the
function-level handler). -/
def processRows : List Row → Except Unit (List BaseMessage)
  | [] => .ok []
  | r :: rs =>
    match decodeRowDict r.payload with
    | .error e => .error e
    | .ok none => processRows rs
    | .ok (some d) =>
      match processRows rs with
      | .error e => .error e
      | .ok rest => .ok (annotateRow d r.created_at :: rest)

/-- The SELECT of `_fetch_messages_with_timestamp`: the rows of the session
ordered by `created_at` ascending. -/
def sortedSession (table : List Row) (sid : String) : List Row :=
  List.insertionSort (fun a b => a.created_at ≤ b.created_at)
    (table.filter (fun r => r.session_id == sid))

/-- Rebuild a message from a decoded dict without annotation. -/
def plainMessage (d : MsgDict) : BaseMessage :=
  if d.type.getD "human" = "ai" then
    { role := .ai, content := d.content.getD "", additional_kwargs := d.additional_kwargs.getD [] }
  else
    { role := .human, content := d.content.getD "", additional_kwargs := d.additional_kwargs.getD [] }

/-- Modelled from the spec: the external store adapter read
(`self._postgres_history.messages`, langchain code outside this repository)
returns the raw unannotated message list of the session — payloads decoded
in insertion order, contents untouched. -/
def rawMessages (table : List Row) (sid : String) : List BaseMessage :=
  (List.insertionSort (fun a b => a.id ≤ b.id)
      (table.filter (fun r => r.session_id == sid))).filterMap (fun r =>
    match r.payload with
    | .str (some d) => some (plainMessage d)
    | .dict d => some (plainMessage d)
    | _ => none)

/-- `_fetch_messages_with_timestamp`: `connFails` models a connection or
query error raised by the store on this read; any exception inside the try
block makes the function fall back to the raw unannotated history. -/
def fetch_messages_with_timestamp (connFails : Bool) (table : List Row) (sid : String) :
    List BaseMessage :=
  if connFails then rawMessages table sid
  else
    match processRows (sortedSession table sid) with
    | .ok msgs => msgs
    | .error _ => rawMessages table sid

/-- `get_optimized_context`: fetch annotated history, return it whole when
within the limit, otherwise slice to the most recent `max_messages` and
shorten to the last three on detected confusion. -/
def get_optimized_context (connFails : Bool) (table : List Row) (sid : String)
    (max_messages : Int) : List BaseMessage :=
  let all_messages := fetch_messages_with_timestamp connFails table sid
  if (all_messages.length : Int) ≤ max_messages then
    all_messages
  else
    let recent_messages := pySliceFrom all_messages (-max_messages)
    if should_clear_context recent_messages then
      pySliceFrom recent_messages (-3)
    else
      recent_messages

/-- `_enforce_message_limit`: `connFails` models a store error anywhere in
the try block (caught and logged, leaving the table untouched). The ids of
the session are read in ascending order; when they exceed the limit the
excess oldest ids are deleted in one batch whose WHERE clause filters by id
only, exactly as the SQL statement does. -/
def enforce_message_limit (connFails : Bool) (table : List Row) (sid : String)
    (max_messages : Int) : List Row :=
  if connFails then table
  else
    let message_ids :=
      List.insertionSort (fun a b => a ≤ b)
        ((table.filter (fun r => r.session_id == sid)).map (fun r => r.id))
    if max_messages < (message_ids.length : Int) then
      let messages_to_delete := ((message_ids.length : Int) - max_messages).toNat
      let ids_to_delete := message_ids.take messages_to_delete
      table.filter (fun r => !(ids_to_delete.contains r.id))
    else table

/-! Concrete sample data used by witnesses and counterexamples. -/

/-- A two-message session. -/
def sampleTwo : List Row :=
  [⟨1, "s", .dict ⟨some "human", some "m1", some []⟩, 1000000⟩,
   ⟨2, "s", .dict ⟨some "human", some "m2", some []⟩, 1000001⟩]

/-- A four-row table: three rows of one session and one of another. -/
def sampleRetention : List Row :=
  [⟨1, "s", .dict ⟨some "human", some "m1", some []⟩, 1000000⟩,
   ⟨2, "s", .dict ⟨some "human", some "m2", some []⟩, 1000001⟩,
   ⟨3, "s", .dict ⟨some "human", some "m3", some []⟩, 1000002⟩,
   ⟨4, "t", .dict ⟨some "human", some "x1", some []⟩, 1000003⟩]

/-! Helper lemmas. -/

/-- Slicing with a negative index `-k` keeps the last `k` elements. -/
lemma pySliceFrom_neg (l : List α) (k : Nat) (hk : 0 < k) :
    pySliceFrom l (-(k : Int)) = l.drop (l.length - k) := by
  unfold pySliceFrom
  rw [if_neg (by omega)]
  norm_num

/-- Slicing from index zero is the identity. -/
lemma pySliceFrom_zero (l : List α) : pySliceFrom l 0 = l := by
  simp [pySliceFrom]

/-- The content built by the annotator, in closed form. -/
lemma annotateRow_content (d : MsgDict) (t : Int) :
    (annotateRow d t).content
      = "[CONTEXTO_MEMORIA_ANTIGA: " ++ formatSaoPaulo t ++ "] " ++ d.content.getD "" := by
  by_cases h : d.type.getD "human" = "ai" <;> simp [annotateRow, h]

/-- Every message of a successful row-loop run carries the injected
timestamp marker. -/
lemma processRows_ok_content (l : List Row) (msgs : List BaseMessage)
    (h : processRows l = Except.ok msgs) :
    ∀ m ∈ msgs, ∃ t c,
      m.content = "[CONTEXTO_MEMORIA_ANTIGA: " ++ formatSaoPaulo t ++ "] " ++ c := by
  induction l generalizing msgs with
  | nil =>
    simp only [processRows, Except.ok.injEq] at h
    subst h
    intro m hm
    cases hm
  | cons r rs ih =>
    simp only [processRows] at h
    cases hd : decodeRowDict r.payload with
    | error e => rw [hd] at h; cases h
    | ok od =>
      rw [hd] at h
      cases od with
      | none => exact ih msgs h
      | some d =>
        cases hrec : processRows rs with
        | error e => rw [hrec] at h; cases h
        | ok rest =>
          rw [hrec] at h
          simp only [Except.ok.injEq] at h
          subst h
          intro m hm
          rcases List.mem_cons.mp hm with rfl | hm
          · exact ⟨r.created_at, d.content.getD "", annotateRow_content d r.created_at⟩
          · exact ih rest hrec m hm

/-- The SELECT of the read path really is ordered by creation time. -/
lemma sortedSession_pairwise (table : List Row) (sid : String) :
    List.Pairwise (fun a b => a.created_at ≤ b.created_at) (sortedSession table sid) :=
  @List.sorted_insertionSort Row (fun a b => a.created_at ≤ b.created_at) _
    ⟨fun a b => Int.le_total a.created_at b.created_at⟩
    ⟨fun _ _ _ hab hbc => le_trans hab hbc⟩
    (table.filter (fun r => r.session_id == sid))

/-- A row of an unexpected payload type is skipped by the row loop. -/
lemma processRows_skip (pre post : List Row) (r : Row) (h : r.payload = .other) :
    processRows (pre ++ r :: post) = processRows (pre ++ post) := by
  induction pre with
  | nil =>
    simp only [List.nil_append, processRows, h, decodeRowDict]
  | cons a pre ih =>
    simp only [List.cons_append, processRows, List.append_eq]
    rw [ih]

/-- A row whose string payload fails to parse aborts the whole row loop. -/
lemma processRows_error_of_mem (l : List Row) (r : Row) (hm : r ∈ l)
    (h : r.payload = .str none) : processRows l = Except.error () := by
  induction l with
  | nil => cases hm
  | cons a rs ih =>
    rcases List.mem_cons.mp hm with rfl | hmem
    · simp only [processRows, h, decodeRowDict]
    · have he := ih hmem
      cases hd : decodeRowDict a.payload with
      | error e => simp only [processRows, hd]
      | ok od =>
        cases od with
        | none => simp only [processRows, hd, he]
        | some d => simp only [processRows, hd, he]

/-- The fetch returns the processed messages when the row loop succeeds. -/
lemma fetch_ok (table : List Row) (sid : String) (msgs : List BaseMessage)
    (hok : processRows (sortedSession table sid) = Except.ok msgs) :
    fetch_messages_with_timestamp false table sid = msgs := by
  simp [fetch_messages_with_timestamp, hok]

/-- Slicing with the literal index -3 keeps the last three elements. -/
lemma pySliceFrom_neg_three (l : List α) : pySliceFrom l (-3) = l.drop (l.length - 3) := by
  unfold pySliceFrom
  rw [if_neg (by omega)]
  rfl

/-! Claim theorems. -/

/-- C7: the confusion detector returns false on windows of fewer than 3
messages; on a window of at least 3 messages it returns true exactly when
at least 2 distinct phrases of the fixed confusion list occur as
case-insensitive substrings of the space-joined text of the last 3
messages of the window. -/
theorem c7_detector_spec (recent : List BaseMessage) :
    (recent.length < 3 → should_clear_context recent = false) ∧
    (3 ≤ recent.length →
      (should_clear_context recent = true ↔
        2 ≤ confusion_patterns.countP (fun pat =>
          containsSub (String.intercalate " "
            ((pySliceFrom recent (-3)).map (fun m => pyLower m.content))) pat))) := by
  constructor
  · intro h
    simp [should_clear_context, h]
  · intro h
    rw [should_clear_context, if_neg (by omega)]
    simp

/-- C7 witness at the sample window of three confusing messages. -/
theorem c7_witness :
    3 ≤ ([⟨.human, "não identifiquei", []⟩, ⟨.human, "pode informar", []⟩,
          ⟨.human, "x", []⟩] : List BaseMessage).length ∧
    (should_clear_context [⟨.human, "não identifiquei", []⟩, ⟨.human, "pode informar", []⟩,
          ⟨.human, "x", []⟩] = true ↔
      2 ≤ confusion_patterns.countP (fun pat =>
        containsSub (String.intercalate " "
          ((pySliceFrom ([⟨.human, "não identifiquei", []⟩, ⟨.human, "pode informar", []⟩,
            ⟨.human, "x", []⟩] : List BaseMessage) (-3)).map (fun m => pyLower m.content))) pat)) :=
  ⟨by decide,
   (c7_detector_spec [⟨.human, "não identifiquei", []⟩, ⟨.human, "pode informar", []⟩,
      ⟨.human, "x", []⟩]).2 (by decide)⟩

/-- C10: a 3-message window on which the detector fires although no single
message contains any confusion phrase: the single-space join lets phrases
match across message boundaries. -/
theorem c10_cross_boundary_match :
    should_clear_context
      [⟨.human, "pode", []⟩, ⟨.human, "informar desculpe,", []⟩, ⟨.human, "não", []⟩] = true ∧
    (∀ pat ∈ confusion_patterns,
      ∀ m ∈ ([⟨.human, "pode", []⟩, ⟨.human, "informar desculpe,", []⟩,
              ⟨.human, "não", []⟩] : List BaseMessage),
        containsSub (pyLower m.content) pat = false) := by
  decide

/-- C4 (amended): the annotator rewrites the content to the marker
CONTEXTO_MEMORIA_ANTIGA followed by the formatted localized creation time
and the original stored content; the metadata map is passed through
unchanged and the role follows the stored type tag. -/
theorem c4_annotation_shape (d : MsgDict) (t : Int) :
    (annotateRow d t).content
        = "[CONTEXTO_MEMORIA_ANTIGA: " ++ formatSaoPaulo t ++ "] " ++ d.content.getD "" ∧
    (annotateRow d t).additional_kwargs = d.additional_kwargs.getD [] ∧
    (annotateRow d t).role = (if d.type.getD "human" = "ai" then Role.ai else Role.human) := by
  refine ⟨annotateRow_content d t, ?_, ?_⟩ <;>
    by_cases h : d.type.getD "human" = "ai" <;> simp [annotateRow, h]

/-- C4 counterexample: at a concrete row the injected marker is the
Portuguese literal CONTEXTO_MEMORIA_ANTIGA, not OLD_MEMORY_CONTEXT as the
claim words it; the second conjunct also exhibits the concrete rendered
timestamp for 2024-01-15 12:00:00 UTC. -/
theorem c4_marker_counterexample :
    (annotateRow ⟨some "ai", some "hello", some []⟩ 1705320000).content
        ≠ "[OLD_MEMORY_CONTEXT: " ++ formatSaoPaulo 1705320000 ++ "] " ++ "hello" ∧
    (annotateRow ⟨some "ai", some "hello", some []⟩ 1705320000).content
        = "[CONTEXTO_MEMORIA_ANTIGA: 15/01/2024 09:00:00 (-03)] hello" := by
  decide

/-- C5 (amended): a row whose payload is of an unexpected type (neither a
string nor a parsed dict) is skipped and the row loop continues with the
remaining rows; but a string payload on which parsing raises aborts the
whole loop, and the fetch then falls back to the raw unannotated message
list for the entire session. -/
theorem c5_decode_failure_paths (pre post : List Row) (r : Row) :
    (r.payload = .other →
      processRows (pre ++ r :: post) = processRows (pre ++ post)) ∧
    (r.payload = .str none → ∀ table sid,
      sortedSession table sid = pre ++ r :: post →
      fetch_messages_with_timestamp false table sid = rawMessages table sid) := by
  constructor
  · exact processRows_skip pre post r
  · intro h table sid hsort
    have hmem : r ∈ sortedSession table sid := by
      rw [hsort]
      exact List.mem_append_right pre (List.mem_cons_self r post)
    have herr := processRows_error_of_mem (sortedSession table sid) r hmem h
    simp [fetch_messages_with_timestamp, herr]

/-- C5 witness: a skipped unexpected-type row between two good rows. -/
theorem c5_witness :
    processRows [⟨1, "s", .dict ⟨some "human", some "m1", some []⟩, 1000000⟩,
                 ⟨2, "s", .other, 1000001⟩,
                 ⟨3, "s", .dict ⟨some "ai", some "m3", some []⟩, 1000002⟩]
      = processRows [⟨1, "s", .dict ⟨some "human", some "m1", some []⟩, 1000000⟩,
                     ⟨3, "s", .dict ⟨some "ai", some "m3", some []⟩, 1000002⟩] :=
  (c5_decode_failure_paths
      [⟨1, "s", .dict ⟨some "human", some "m1", some []⟩, 1000000⟩]
      [⟨3, "s", .dict ⟨some "ai", some "m3", some []⟩, 1000002⟩]
      ⟨2, "s", .other, 1000001⟩).1 rfl

/-- C5 counterexample: with a session holding one unparseable string payload
and one good row, the bad row is not skipped with processing continuing:
the decode error aborts the annotated read and the whole session falls back
to the raw unannotated list, so the good message loses its annotation. -/
theorem c5_abort_counterexample :
    fetch_messages_with_timestamp false
        [⟨1, "s", .str none, 1000000⟩,
         ⟨2, "s", .dict ⟨some "ai", some "hello", some []⟩, 1000001⟩] "s"
      ≠ [annotateRow ⟨some "ai", some "hello", some []⟩ 1000001] ∧
    fetch_messages_with_timestamp false
        [⟨1, "s", .str none, 1000000⟩,
         ⟨2, "s", .dict ⟨some "ai", some "hello", some []⟩, 1000001⟩] "s"
      = rawMessages
        [⟨1, "s", .str none, 1000000⟩,
         ⟨2, "s", .dict ⟨some "ai", some "hello", some []⟩, 1000001⟩] "s" := by
  decide

/-- C6: on a store connectivity or query error during the annotated read,
the fetch returns the raw unannotated message list of the session instead
of raising, and the composer then serves that fallback unchanged whenever
it fits the limit. -/
theorem c6_conn_failure_fallback (table : List Row) (sid : String) (k : Int) :
    fetch_messages_with_timestamp true table sid = rawMessages table sid ∧
    (((rawMessages table sid).length : Int) ≤ k →
      get_optimized_context true table sid k = rawMessages table sid) := by
  refine ⟨rfl, ?_⟩
  intro h
  simp only [get_optimized_context]
  rw [show fetch_messages_with_timestamp true table sid = rawMessages table sid from rfl,
    if_pos h]

/-- C6 witness: the fallback on the two-message sample session. -/
theorem c6_witness :
    ((rawMessages sampleTwo "s").length : Int) ≤ 20 ∧
    get_optimized_context true sampleTwo "s" 20 = rawMessages sampleTwo "s" :=
  ⟨by decide, (c6_conn_failure_fallback sampleTwo "s" 20).2 (by decide)⟩

/-- C9 (amended): with a limit of zero the length guard fails for any
nonempty history and the slice keeps the whole list, so when the detector
does not fire on the full history the composer returns the entire stored
history, not a bounded window; a negative limit instead drops leading
messages, so it, too, never enforces the bound. -/
theorem c9_zero_limit_returns_all (table : List Row) (sid : String)
    (h1 : 1 ≤ (fetch_messages_with_timestamp false table sid).length)
    (h2 : should_clear_context (fetch_messages_with_timestamp false table sid) = false) :
    get_optimized_context false table sid 0 = fetch_messages_with_timestamp false table sid := by
  unfold get_optimized_context
  rw [if_neg (by omega), show (-(0 : Int)) = 0 from rfl, pySliceFrom_zero]
  simp [h2]

/-- C9 witness: the zero limit on the two-message sample session. -/
theorem c9_witness :
    1 ≤ (fetch_messages_with_timestamp false sampleTwo "s").length ∧
    should_clear_context (fetch_messages_with_timestamp false sampleTwo "s") = false ∧
    get_optimized_context false sampleTwo "s" 0 = fetch_messages_with_timestamp false sampleTwo "s" :=
  ⟨by decide, by decide, c9_zero_limit_returns_all sampleTwo "s" (by decide) (by decide)⟩

/-- C9 counterexample: with a negative limit the composer returns a strict
suffix, not the entire stored history: with limit -1 and two stored
messages only the last message comes back. -/
theorem c9_negative_limit_counterexample :
    get_optimized_context false sampleTwo "s" (-1)
        ≠ fetch_messages_with_timestamp false sampleTwo "s" ∧
    get_optimized_context false sampleTwo "s" (-1)
        = [annotateRow ⟨some "human", some "m2", some []⟩ 1000001] ∧
    fetch_messages_with_timestamp false sampleTwo "s"
        = [annotateRow ⟨some "human", some "m1", some []⟩ 1000000,
           annotateRow ⟨some "human", some "m2", some []⟩ 1000001] := by
  decide

/-- A 25-message session: ids 1..25, creation times strictly increasing. -/
def sample25 : List Row := (List.range 25).map (fun i =>
  ⟨i + 1, "s", .dict ⟨some "human", some ("m" ++ toString (i + 1)), some []⟩,
   1000000 + (i : Int)⟩)

/-- The annotated messages of the 25-message session, in creation order. -/
def msgs25 : List BaseMessage := (List.range 25).map (fun i =>
  annotateRow ⟨some "human", some ("m" ++ toString (i + 1)), some []⟩ (1000000 + (i : Int)))

/-- C8: when the decodable history fits within the limit, the composer
returns the whole annotated list unchanged: all n messages in ascending
creation order, each carrying the injected timestamp marker, with the
confusion truncation never applied. -/
theorem c8_within_limit (table : List Row) (sid : String) (k : Nat)
    (msgs : List BaseMessage)
    (hok : processRows (sortedSession table sid) = Except.ok msgs)
    (hle : msgs.length ≤ k) :
    get_optimized_context false table sid (k : Int) = msgs ∧
    (∀ m ∈ msgs, ∃ t c,
      m.content = "[CONTEXTO_MEMORIA_ANTIGA: " ++ formatSaoPaulo t ++ "] " ++ c) ∧
    List.Pairwise (fun a b => a.created_at ≤ b.created_at) (sortedSession table sid) := by
  refine ⟨?_, processRows_ok_content _ _ hok, sortedSession_pairwise table sid⟩
  unfold get_optimized_context
  rw [fetch_ok table sid msgs hok, if_pos (by exact_mod_cast hle)]

/-- C8 witness on the two-message sample session with the default limit. -/
theorem c8_witness :
    processRows (sortedSession sampleTwo "s")
        = Except.ok [annotateRow ⟨some "human", some "m1", some []⟩ 1000000,
                     annotateRow ⟨some "human", some "m2", some []⟩ 1000001] ∧
    ([annotateRow ⟨some "human", some "m1", some []⟩ 1000000,
      annotateRow ⟨some "human", some "m2", some []⟩ 1000001] : List BaseMessage).length ≤ 20 ∧
    get_optimized_context false sampleTwo "s" 20
        = [annotateRow ⟨some "human", some "m1", some []⟩ 1000000,
           annotateRow ⟨some "human", some "m2", some []⟩ 1000001] :=
  ⟨by rfl, by decide,
   (c8_within_limit sampleTwo "s" 20
      [annotateRow ⟨some "human", some "m1", some []⟩ 1000000,
       annotateRow ⟨some "human", some "m2", some []⟩ 1000001] (by rfl) (by decide)).1⟩

/-- C1: with more decodable messages than the (positive) limit and no
confusion detected on the window, the composer returns exactly the
max_messages most recent annotated messages, in ascending creation order. -/
theorem c1_window_no_confusion (table : List Row) (sid : String) (k : Nat)
    (msgs : List BaseMessage)
    (hok : processRows (sortedSession table sid) = Except.ok msgs)
    (hk : 0 < k) (hn : k < msgs.length)
    (hconf : should_clear_context (msgs.drop (msgs.length - k)) = false) :
    get_optimized_context false table sid (k : Int) = msgs.drop (msgs.length - k) ∧
    (msgs.drop (msgs.length - k)).length = k ∧
    (∀ m ∈ msgs, ∃ t c,
      m.content = "[CONTEXTO_MEMORIA_ANTIGA: " ++ formatSaoPaulo t ++ "] " ++ c) ∧
    List.Pairwise (fun a b => a.created_at ≤ b.created_at) (sortedSession table sid) := by
  refine ⟨?_, by rw [List.length_drop]; omega, processRows_ok_content _ _ hok,
    sortedSession_pairwise table sid⟩
  unfold get_optimized_context
  rw [fetch_ok table sid msgs hok, if_neg (by omega), pySliceFrom_neg msgs k hk]
  simp [hconf]

set_option maxRecDepth 100000 in
/-- C1 witness: the 25-message scenario with limit 20 returns the annotated
messages 6..25 in insertion order. -/
theorem c1_witness :
    processRows (sortedSession sample25 "s") = Except.ok msgs25 ∧
    0 < 20 ∧ 20 < msgs25.length ∧
    should_clear_context (msgs25.drop (msgs25.length - 20)) = false ∧
    get_optimized_context false sample25 "s" 20 = msgs25.drop 5 := by
  have h := c1_window_no_confusion sample25 "s" 20 msgs25 (by rfl) (by decide) (by decide)
    (by decide)
  have h5 : msgs25.length - 20 = 5 := by decide
  exact ⟨by rfl, by decide, by decide, by decide, by rw [← h5]; exact h.1⟩

/-- C2: with more decodable messages than the limit (at least 3) and at
least two distinct confusion phrases occurring in the joined lowercased
text of the last three window messages, the composer returns exactly those
trailing three messages of the window and nothing else. -/
theorem c2_confusion_truncates (table : List Row) (sid : String) (k : Nat)
    (msgs : List BaseMessage)
    (hok : processRows (sortedSession table sid) = Except.ok msgs)
    (hk : 3 ≤ k) (hn : k < msgs.length)
    (hpat : 2 ≤ confusion_patterns.countP (fun pat =>
        containsSub (String.intercalate " "
          (((msgs.drop (msgs.length - k)).drop (k - 3)).map (fun m => pyLower m.content)))
          pat)) :
    get_optimized_context false table sid (k : Int)
        = (msgs.drop (msgs.length - k)).drop (k - 3) ∧
    ((msgs.drop (msgs.length - k)).drop (k - 3)).length = 3 := by
  have hw : (msgs.drop (msgs.length - k)).length = k := by rw [List.length_drop]; omega
  have hsc : should_clear_context (msgs.drop (msgs.length - k)) = true := by
    unfold should_clear_context
    rw [if_neg (by rw [hw]; omega), pySliceFrom_neg_three, hw]
    exact decide_eq_true hpat
  constructor
  · unfold get_optimized_context
    rw [fetch_ok table sid msgs hok, if_neg (by omega),
      pySliceFrom_neg msgs k (by omega)]
    simp only [hsc, if_true]
    rw [pySliceFrom_neg_three, hw]
  · rw [List.length_drop, hw]
    omega

/-- A five-message session whose last three messages each contain two
confusion phrases. -/
def sampleConfusion : List Row :=
  [⟨1, "s", .dict ⟨some "human", some "m1", some []⟩, 1000000⟩,
   ⟨2, "s", .dict ⟨some "ai", some "m2", some []⟩, 1000001⟩,
   ⟨3, "s", .dict ⟨some "human", some "desculpe, não pode informar", some []⟩, 1000002⟩,
   ⟨4, "s", .dict ⟨some "ai", some "desculpe, não pode informar", some []⟩, 1000003⟩,
   ⟨5, "s", .dict ⟨some "human", some "desculpe, não pode informar", some []⟩, 1000004⟩]

/-- The annotated messages of the confusing five-message session. -/
def msgsConfusion : List BaseMessage :=
  [annotateRow ⟨some "human", some "m1", some []⟩ 1000000,
   annotateRow ⟨some "ai", some "m2", some []⟩ 1000001,
   annotateRow ⟨some "human", some "desculpe, não pode informar", some []⟩ 1000002,
   annotateRow ⟨some "ai", some "desculpe, não pode informar", some []⟩ 1000003,
   annotateRow ⟨some "human", some "desculpe, não pode informar", some []⟩ 1000004]

set_option maxRecDepth 100000 in
/-- C2 witness: five stored messages, limit 4, the last three messages each
containing two confusion phrases: the composer returns only messages 3..5. -/
theorem c2_witness :
    processRows (sortedSession sampleConfusion "s") = Except.ok msgsConfusion ∧
    3 ≤ 4 ∧ 4 < msgsConfusion.length ∧
    2 ≤ confusion_patterns.countP (fun pat =>
        containsSub (String.intercalate " "
          (((msgsConfusion.drop (msgsConfusion.length - 4)).drop (4 - 3)).map
            (fun m => pyLower m.content))) pat) ∧
    get_optimized_context false sampleConfusion "s" 4
        = (msgsConfusion.drop (msgsConfusion.length - 4)).drop (4 - 3) :=
  ⟨by rfl, by decide, by decide, by decide,
   (c2_confusion_truncates sampleConfusion "s" 4 msgsConfusion (by rfl) (by decide) (by decide)
      (by decide)).1⟩

/-- Counting a predicate and its complement covers the whole list. -/
lemma countP_add_countP_neg (p : α → Bool) (l : List α) :
    l.countP p + l.countP (fun a => !(p a)) = l.length := by
  induction l with
  | nil => simp
  | cons a l ih => by_cases h : p a = true <;> simp [List.countP_cons, h] <;> omega

/-- Membership counting over an append whose halves are disjoint. -/
lemma countP_mem_append (T D : List Nat) (hd : ∀ x ∈ D, x ∉ T) :
    (T ++ D).countP (fun x => T.contains x) = T.length := by
  rw [List.countP_append]
  have h1 : T.countP (fun x => T.contains x) = T.length :=
    List.countP_eq_length.mpr (fun a ha => by simp [ha])
  have h2 : D.countP (fun x => T.contains x) = 0 :=
    List.countP_eq_zero.mpr (fun a ha => by simp [hd a ha])
  rw [h1, h2]
  omega

/-- In a nodup list, exactly its first m elements pass the membership test
against its own m-element prefix. -/
lemma countP_take_of_nodup (S : List Nat) (hnd : S.Nodup) (m : Nat) (hm : m ≤ S.length) :
    S.countP (fun x => (S.take m).contains x) = m := by
  have hd : ∀ x ∈ S.drop m, x ∉ S.take m := fun x hx hxT =>
    (List.disjoint_take_drop hnd (le_refl m)) hxT hx
  calc S.countP (fun x => (S.take m).contains x)
      = (S.take m ++ S.drop m).countP (fun x => (S.take m).contains x) := by
        nth_rewrite 2 [← List.take_append_drop m S]
        rfl
    _ = (S.take m).length := countP_mem_append _ _ hd
    _ = m := by rw [List.length_take]; exact min_eq_left hm

/-- In a strictly ascending list, membership in the m-element prefix is
equivalent to having fewer than m smaller elements. -/
lemma mem_take_iff_countP_lt :
    ∀ (S : List Nat), List.Pairwise (fun a b => a < b) S →
      ∀ (y : Nat), y ∈ S → ∀ (m : Nat),
        (y ∈ S.take m ↔ S.countP (fun x => decide (x < y)) < m)
  | [], _, y, hy, _ => absurd hy (List.not_mem_nil y)
  | a :: S, _, y, hy, 0 => by simp
  | a :: S, hs, y, hy, (m + 1) => by
    rcases List.pairwise_cons.mp hs with ⟨ha, hS⟩
    rw [List.take_succ_cons, List.countP_cons]
    rcases List.mem_cons.mp hy with rfl | hyS
    · have h0 : S.countP (fun x => decide (x < y)) = 0 :=
        List.countP_eq_zero.mpr (fun b hb => by
          simp only [decide_eq_true_eq]
          have := ha b hb
          omega)
      simp [h0]
    · have hay : a < y := ha y hyS
      have hne : y ≠ a := by omega
      have hiff := mem_take_iff_countP_lt S hS y hyS m
      simp only [List.mem_cons, hne, false_or]
      rw [if_pos (by simp [hay]), hiff]
      omega

/-- C3: a successful retention pass (no store error) leaves the table
untouched when the session has at most max_messages rows; when the session
has n > max_messages rows it deletes exactly the n - k oldest session rows
by ascending id in one batch: afterwards exactly k session rows remain,
namely the k most recently inserted ones (those with at least n - k
session rows of smaller id), and every other row of the table survives. -/
theorem c3_enforce_retention (table : List Row) (sid : String) (k : Nat)
    (hids : (table.map (fun r => r.id)).Nodup) :
    ((table.filter (fun r => r.session_id == sid)).length ≤ k →
      enforce_message_limit false table sid (k : Int) = table) ∧
    (k < (table.filter (fun r => r.session_id == sid)).length →
      ((enforce_message_limit false table sid (k : Int)).filter
          (fun r => r.session_id == sid)).length = k ∧
      (∀ r ∈ table,
        r ∈ enforce_message_limit false table sid (k : Int) ↔
          (¬ r.session_id = sid ∨
            (table.filter (fun r2 => r2.session_id == sid)).length - k ≤
              (table.filter (fun r2 => r2.session_id == sid)).countP
                (fun r2 => decide (r2.id < r.id))))) := by
  set before := table.filter (fun r => r.session_id == sid) with hbefore
  set sids := before.map (fun r => r.id) with hsidsdef
  set S := List.insertionSort (fun a b => a ≤ b) sids with hSdef
  have hperm : S.Perm sids := List.perm_insertionSort _ _
  have hlenS : S.length = before.length := by
    rw [hSdef, List.length_insertionSort, hsidsdef, List.length_map]
  have hnd_sids : sids.Nodup :=
    List.Nodup.sublist (List.Sublist.map _ (List.filter_sublist table)) hids
  have hndS : S.Nodup := hperm.nodup_iff.mpr hnd_sids
  have hsorted : List.Pairwise (fun a b : Nat => a ≤ b) S :=
    @List.sorted_insertionSort Nat (fun a b => a ≤ b) _
      ⟨Nat.le_total⟩ ⟨fun _ _ _ => Nat.le_trans⟩ sids
  have hstrict : List.Pairwise (fun a b : Nat => a < b) S :=
    (hsorted.and hndS).imp (fun h => Nat.lt_of_le_of_ne h.1 h.2)
  have henf : enforce_message_limit false table sid (k : Int)
      = (if (k : Int) < (S.length : Int) then
          table.filter (fun r => !((S.take (((S.length : Int) - (k : Int)).toNat)).contains r.id))
        else table) := rfl
  constructor
  · intro h
    rw [henf, if_neg (by omega)]
  · intro h
    have hmt : (((S.length : Int) - (k : Int)).toNat) = before.length - k := by omega
    rw [henf, if_pos (by omega), hmt]
    set T := S.take (before.length - k) with hTdef
    have hm_le : before.length - k ≤ S.length := by omega
    -- the number of session rows whose id falls in the deleted prefix
    have hcnt_del : before.countP (fun r => T.contains r.id) = before.length - k := by
      have h1 : before.countP (fun r => T.contains r.id)
          = sids.countP (fun x => T.contains x) := by
        rw [hsidsdef, List.countP_map]; rfl
      have h2 : sids.countP (fun x => T.contains x)
          = S.countP (fun x => T.contains x) :=
        (List.Perm.countP_eq _ hperm).symm
      rw [h1, h2, hTdef]
      exact countP_take_of_nodup S hndS _ hm_le
    constructor
    · -- exactly k session rows remain
      have hff : (table.filter (fun r => !(T.contains r.id))).filter
            (fun r => r.session_id == sid)
          = (table.filter (fun r => r.session_id == sid)).filter
            (fun r => !(T.contains r.id)) := by
        rw [List.filter_filter, List.filter_filter]
        exact List.filter_congr (fun r _ => Bool.and_comm _ _)
      rw [hff, ← hbefore, ← List.countP_eq_length_filter]
      have := countP_add_countP_neg (fun r => T.contains r.id) before
      omega
    · -- row-level characterization
      intro r hr
      have hmemf : r ∈ table.filter (fun r2 => !(T.contains r2.id)) ↔ r.id ∉ T := by
        simp [List.mem_filter, hr]
      by_cases hsess : r.session_id = sid
      · have hrb : r ∈ before := by
          rw [hbefore, List.mem_filter]
          exact ⟨hr, by simp [hsess]⟩
        have hry : r.id ∈ S := hperm.mem_iff.mpr (by
          rw [hsidsdef]
          exact List.mem_map_of_mem _ hrb)
        have hcnt_eq : S.countP (fun x => decide (x < r.id))
            = before.countP (fun r2 => decide (r2.id < r.id)) := by
          have h1 : before.countP (fun r2 => decide (r2.id < r.id))
              = sids.countP (fun x => decide (x < r.id)) := by
            rw [hsidsdef, List.countP_map]; rfl
          rw [h1]
          exact List.Perm.countP_eq _ hperm
        have htake := mem_take_iff_countP_lt S hstrict r.id hry (before.length - k)
        rw [hmemf, hTdef]
        constructor
        · intro hnot
          right
          rw [← hcnt_eq]
          have hge : ¬ (S.countP (fun x => decide (x < r.id)) < before.length - k) :=
            fun hlt => hnot (htake.mpr hlt)
          omega
        · intro hx
          rcases hx with hx | hx
          · exact absurd hsess hx
          · rw [← hcnt_eq] at hx
            intro hmem
            have := htake.mp hmem
            omega
      · -- rows of other sessions are untouched
        have hnotin : r.id ∉ T := by
          rw [hTdef]
          intro hmem
          have hS' : r.id ∈ S := List.take_subset _ _ hmem
          have hsid : r.id ∈ sids := hperm.mem_iff.mp hS'
          rw [hsidsdef] at hsid
          rcases List.mem_map.mp hsid with ⟨r2, hr2, hid⟩
          have hr2t : r2 ∈ table := List.mem_of_mem_filter hr2
          have heq : r2 = r := List.inj_on_of_nodup_map hids hr2t hr hid
          have hbeq : (r2.session_id == sid) = true := (List.mem_filter.mp hr2).2
          rw [heq] at hbeq
          simp only [beq_iff_eq] at hbeq
          exact hsess hbeq
        rw [hmemf]
        simp [hnotin, hsess]

/-- C3 witness: three session rows plus one foreign row, limit 2: the
oldest session row is deleted and the other session keeps its row. -/
theorem c3_witness :
    (((sampleRetention.map (fun r => r.id)).Nodup) ∧
      2 < (sampleRetention.filter (fun r => r.session_id == "s")).length) ∧
    ((enforce_message_limit false sampleRetention "s" 2).filter
        (fun r => r.session_id == "s")).length = 2 :=
  ⟨⟨by decide, by decide⟩,
   ((c3_enforce_retention sampleRetention "s" 2 (by decide)).2 (by decide)).1⟩

end LimitedMemory
